import Mathlib

/-
Verification of the `where` cloud-region query library.

The Go sources are shallowly embedded: slices become `List`, the builder
struct becomes a Lean structure with explicit state passing, `float64`
coordinates and distances are modelled as real numbers, and fallible
operations return the pair `value × Option Err` mirroring Go's
`(value, error)` convention.  The region catalog (`regionRegistry`) is
data external to the repository, so every catalog-dependent operation is
parameterised by an explicit registry argument, following the catalog
interface described in the specification.
-/

namespace Where

/-- `Code` is a strongly typed region identifier (Go: `type Code string`). -/
abbrev Code := String

/-- `Status` is the operational status of a region (Go: `type Status uint8`);
the named constants below mirror the Go `iota` constants. -/
abbrev Status := Nat

/-- Go constant `Active Status = iota` (= 0). -/
def Active : Status := 0

/-- Go constant `Deprecated` (= 1). -/
def Deprecated : Status := 1

/-- Go constant `Preview` (= 2). -/
def Preview : Status := 2

/-- `Region` mirrors the Go struct field for field; `float64` latitude and
longitude are modelled as real numbers, `time.Time` as an abstract `Nat`
instant. -/
structure Region where
  Code : Code
  Name : String
  Provider : String
  Country : String
  City : String
  Continent : String
  Latitude : ℝ
  Longitude : ℝ
  Status : Status
  LaunchDate : Nat
  Zones : List String

/-- The Go zero value `Region{}` (empty strings, zero coordinates,
status `Active` = 0, empty zone list). -/
def Region.zero : Region :=
  { Code := "", Name := "", Provider := "", Country := "", City := ""
    Continent := "", Latitude := 0, Longitude := 0, Status := 0
    LaunchDate := 0, Zones := [] }

/-- Errors produced by the library; each constructor names one of the
`fmt.Errorf` / `errors.New` sites in the source. -/
inductive Err where
  /-- second-variant `Is`: `"region not found: %s"` with the code. -/
  | regionNotFound (code : Code)
  /-- `Set.First` / `Set.Last` on an empty set: `"no regions found"`. -/
  | noRegionsFound
  /-- `Are`: one error carrying the complete list of unresolved codes. -/
  | regionNotFoundMany (codes : List Code)
  /-- first-variant `RegionQuery.First` on an empty query result. -/
  | regionNotFoundBare
  /-- `Closest`: `"no other regions found"`. -/
  | noOtherRegions
  deriving DecidableEq

/-- `Set` is an ordered collection of regions (Go: `type Set []Region`). -/
abbrev Set := List Region

/-- Go `strings.EqualFold` restricted to the ASCII data the catalog holds:
case-insensitive equality via lowercasing. -/
def eqFold (a b : String) : Bool := a.toLower == b.toLower

/-- `Set.Filter` keeps the elements satisfying the predicate, in order. -/
def Set.Filter (s : Set) (predicate : Region → Bool) : Set :=
  s.filter predicate

/-- Modelled from the spec: `Set.ByProvider` (the repository snapshot under
`src/` only has the earlier name `OnProvider` with the identical body; the
builder calls `ByProvider`).  Case-insensitive exact match on the
`Provider` field, as §4.3 of the specification requires. -/
def Set.ByProvider (s : Set) (name : String) : Set :=
  Set.Filter s (fun r => eqFold r.Provider name)

/-- `Set.ByCountry`: case-insensitive exact match on `Country`. -/
def Set.ByCountry (s : Set) (name : String) : Set :=
  Set.Filter s (fun r => eqFold r.Country name)

/-- `Set.ActiveOnly`: keep regions whose status is `Active`. -/
def Set.ActiveOnly (s : Set) : Set :=
  Set.Filter s (fun r => r.Status == Active)

/-- `Set.First` returns the first region, or the `"no regions found"`
error together with the zero region (Go returns the pair). -/
def Set.First (s : Set) : Region × Option Err :=
  match s with
  | [] => (Region.zero, some .noRegionsFound)
  | r :: _ => (r, none)

/-- `Set.Last` returns the last region (`s[len(s)-1]`), or the
`"no regions found"` error together with the zero region. -/
def Set.Last (s : Set) : Region × Option Err :=
  match s.getLast? with
  | none => (Region.zero, some .noRegionsFound)
  | some r => (r, none)

/-- Modelled from the spec: the catalog (`regionRegistry`), whose data
lives outside the repository.  In the single-region variant consumed by
the query builder it maps each code to one `Region`; a Go map is embedded
as an association list whose order stands for the map's iteration order. -/
abbrev Registry := List (Code × Region)

/-- Modelled from the spec: `allRegions()` returns every cataloged region
as a `Set`. -/
def allRegions (reg : Registry) : Set :=
  reg.map (·.2)

/-- Second-variant `Is`: look the code up in the registry, returning the
region or `ErrRegionNotFound` with the code (paired with the zero region,
as the Go function returns `Region{}, err`). -/
def Is (reg : Registry) (code : Code) : Region × Option Err :=
  match reg.lookup code with
  | some region => (region, none)
  | none => (Region.zero, some (.regionNotFound code))

/-- One pass of `Union`'s loop body: walk the input keeping each region
whose code has not been seen, threading the `seen` code set (the Go map
`seen` is modelled as the list of codes inserted so far). -/
def addUnique (seen : List Code) : Set → Set
  | [] => []
  | r :: rs =>
    if r.Code ∈ seen then addUnique seen rs
    else r :: addUnique (r.Code :: seen) rs

/-- `Set.Union`: both Go loops share one `seen` map and append to one
result slice, first over `s`, then over `other`; that is exactly one
`addUnique` pass over `s ++ other` starting from an empty seen set. -/
def Set.Union (s other : Set) : Set :=
  addUnique [] (s ++ other)

/-- `Set.Intersect`: keep the regions of `s` whose code occurs in
`other` (the Go `otherMap` is the set of codes of `other`). -/
def Set.Intersect (s other : Set) : Set :=
  s.filter (fun r => (other.map Region.Code).contains r.Code)

/-- `Set.Difference`: keep the regions of `s` whose code does not occur
in `other`. -/
def Set.Difference (s other : Set) : Set :=
  s.filter (fun r => !(other.map Region.Code).contains r.Code)

/-- The number of distinct codes common to both sets (the claim's
"|A ∩ B by Code|"). -/
def commonCodeCount (a b : Set) : Nat :=
  (((a.map Region.Code).filter (fun c => (b.map Region.Code).contains c)).dedup).length

/-- The code-level shadow of `addUnique`: first-occurrence dedup of a
code list relative to an already-seen list. -/
def dedupFirst (seen : List Code) : List Code → List Code
  | [] => []
  | c :: cs => if c ∈ seen then dedupFirst seen cs else c :: dedupFirst (c :: seen) cs

/-- A sample region with code `"a"`, for concrete checks. -/
def rA : Region := { Region.zero with Code := "a" }

/-- A sample region with code `"b"`, for concrete checks. -/
def rB : Region := { Region.zero with Code := "b" }

/-- Modelled from the spec: the multi-region catalog variant, mapping a
code to the list of regions sharing it across providers (the shape the
`Are` / `Closest` snapshot consumes). -/
abbrev RegistryM := List (Code × List Region)

/-- Modelled from the spec: every cataloged region of the multi-region
catalog, in iteration order. -/
def allRegionsM (reg : RegistryM) : Set :=
  reg.flatMap (·.2)

/-- `Are` resolves many codes: regions of every resolvable code are
appended in argument order, unresolved codes are collected, and when any
code is unresolved a single error naming the complete unresolved list is
returned alongside the partial set. -/
def Are (reg : RegistryM) (codes : List Code) : Set × Option Err :=
  let p := codes.foldl
    (fun (acc : Set × List Code) code =>
      match reg.lookup code with
      | some regionList => (acc.1 ++ regionList, acc.2)
      | none => (acc.1, acc.2 ++ [code]))
    ([], [])
  if p.2 = [] then (p.1, none)
  else (p.1, some (.regionNotFoundMany p.2))

/-- Go `math.Atan2` on real numbers (the standard sign-correct two
argument arctangent; the NaN propagation of the float version is outside
the real-number model). -/
noncomputable def atan2 (y x : ℝ) : ℝ :=
  if 0 < x then Real.arctan (y / x)
  else if x < 0 ∧ 0 ≤ y then Real.arctan (y / x) + Real.pi
  else if x < 0 ∧ y < 0 then Real.arctan (y / x) - Real.pi
  else if x = 0 ∧ 0 < y then Real.pi / 2
  else if x = 0 ∧ y < 0 then -(Real.pi / 2)
  else 0

/-- `haversineDistance` transcribed from the source, with `float64`
arithmetic modelled over the reals. -/
noncomputable def haversineDistance (lat1 lng1 lat2 lng2 : ℝ) : ℝ :=
  let earthRadiusKm : ℝ := 6371
  let dLat := (lat2 - lat1) * Real.pi / 180
  let dLng := (lng2 - lng1) * Real.pi / 180
  let lat1Rad := lat1 * Real.pi / 180
  let lat2Rad := lat2 * Real.pi / 180
  let a := Real.sin (dLat / 2) * Real.sin (dLat / 2) +
    Real.sin (dLng / 2) * Real.sin (dLng / 2) * Real.cos lat1Rad * Real.cos lat2Rad
  let c := 2 * atan2 (Real.sqrt a) (Real.sqrt (1 - a))
  earthRadiusKm * c

/-- `Region.Distance`: great-circle distance to another region. -/
noncomputable def Region.Distance (r other : Region) : ℝ :=
  haversineDistance r.Latitude r.Longitude other.Latitude other.Longitude

/-- `Region.IsNear`: true iff the haversine distance from the region to
the target point is at most `radiusKm` (the source compares with `<=`). -/
def Region.IsNear (r : Region) (lat lng radiusKm : ℝ) : Prop :=
  haversineDistance r.Latitude r.Longitude lat lng ≤ radiusKm

open Classical in
/-- `Set.Near` filters regions within the radius of a location. -/
noncomputable def Set.Near (s : Set) (lat lng radiusKm : ℝ) : Set :=
  s.filter (fun r => decide (Region.IsNear r lat lng radiusKm))

/-- The query builder state: the current `Set` plus the accumulated
errors (Go struct `Query`). -/
structure Query where
  regions : Set
  errors : List Err

/-- `NewQuery` starts from the full catalog snapshot with no errors. -/
def NewQuery (reg : Registry) : Query :=
  { regions := allRegions reg, errors := [] }

/-- `Query.ByProvider` filters the builder's set by provider. -/
def Query.ByProvider (q : Query) (name : String) : Query :=
  { q with regions := Set.ByProvider q.regions name }

/-- `Query.InCountry` filters the builder's set by country. -/
def Query.InCountry (q : Query) (name : String) : Query :=
  { q with regions := Set.ByCountry q.regions name }

/-- `Query.ActiveOnly` filters the builder's set to active regions. -/
def Query.ActiveOnly (q : Query) : Query :=
  { q with regions := Set.ActiveOnly q.regions }

/-- `Query.Near` filters the builder's set to regions within the radius
of a location. -/
noncomputable def Query.Near (q : Query) (lat lng radiusKm : ℝ) : Query :=
  { q with regions := Set.Near q.regions lat lng radiusKm }

/-- `Query.NearRegion` resolves the code via `Is`; on failure the error
is appended to the builder's error list and the set is left untouched,
otherwise it filters near the resolved region's coordinates. -/
noncomputable def Query.NearRegion (reg : Registry) (q : Query) (code : Code)
    (radiusKm : ℝ) : Query :=
  match Is reg code with
  | (_, some e) => { q with errors := q.errors ++ [e] }
  | (region, none) => Query.Near q region.Latitude region.Longitude radiusKm

/-- `Query.Limit` mirrors
`if n < len(q.regions) { q.regions = q.regions[:n] }`.
The result is `none` exactly when the Go slice expression
`q.regions[:n]` panics, which happens for every negative `n` (a negative
bound is out of range); otherwise the set is truncated to its first `n`
elements when `n` is smaller than the count and left unchanged when it
is not. -/
def Query.Limit (q : Query) (n : Int) : Option Query :=
  if n < (q.regions.length : Int) then
    if 0 ≤ n then some { q with regions := q.regions.take n.toNat }
    else none
  else some q

/-- `Query.First`: an accumulated error takes priority (the Go code
returns `Region{}, q.errors[0]` before ever consulting the set);
otherwise delegate to `Set.First`. -/
def Query.First (q : Query) : Region × Option Err :=
  match q.errors with
  | e :: _ => (Region.zero, some e)
  | [] => Set.First q.regions

/-- `Query.Last`: same error priority, then delegate to `Set.Last`. -/
def Query.Last (q : Query) : Region × Option Err :=
  match q.errors with
  | e :: _ => (Region.zero, some e)
  | [] => Set.Last q.regions

/-- `Query.Exec` returns the current set, ignoring accumulated errors. -/
def Query.Exec (q : Query) : Set :=
  q.regions

/-- `Query.ExecWithErrors` returns the current set and the full
accumulated error list. -/
def Query.ExecWithErrors (q : Query) : Set × List Err :=
  (q.regions, q.errors)

/-- First-variant `Is`: the query over all regions registered under the
code (empty when the code is absent), Go's `RegionQuery`. -/
def IsQ (reg : RegistryM) (code : Code) : List Region :=
  (reg.lookup code).getD []

/-- First-variant `RegionQuery.First`: the first matching region, or
`ErrRegionNotFound` with the zero region when there is none. -/
def RegionQuery.First (rq : List Region) : Region × Option Err :=
  match rq with
  | [] => (Region.zero, some .regionNotFoundBare)
  | r :: _ => (r, none)

/-- Go constant `math.MaxFloat64` as a real number. -/
noncomputable def maxFloat64 : ℝ := 2 ^ 1024 - 2 ^ 971

open Classical in
/-- The body of `Closest`'s scan once the skip is decided: keep the
strictly closest region seen so far
(`if distance < minDistance { minDistance = distance; closest = region }`). -/
noncomputable def closestStep (target : Region) (acc : Region × ℝ)
    (region : Region) : Region × ℝ :=
  if Region.Distance target region < acc.2 then
    (region, Region.Distance target region)
  else acc

/-- `Closest` transcribed from the first-variant source: resolve the
target via `Is(to).First()`, then scan every cataloged region, skipping
those whose code equals `to` (`continue`), keeping the strictly closest
so far (seeded with the zero region at distance `math.MaxFloat64`);
finally the empty-string code of the seed is used as the "nothing
found" sentinel. -/
noncomputable def Closest (reg : RegistryM) (toCode : Code) : Region × Option Err :=
  match RegionQuery.First (IsQ reg toCode) with
  | (_, some e) => (Region.zero, some e)
  | (target, none) =>
    let p := (allRegionsM reg).foldl
      (fun (acc : Region × ℝ) region =>
        if region.Code == toCode then acc
        else closestStep target acc region)
      (Region.zero, maxFloat64)
    if p.1.Code == "" then (Region.zero, some .noOtherRegions)
    else (p.1, none)

/-- The cataloged regions whose code differs from `to` — the candidate
pool `Closest` actually minimises over. -/
def candidates (reg : RegistryM) (toCode : Code) : Set :=
  (allRegionsM reg).filter (fun r => !(r.Code == toCode))

/-- The registry of the `Closest` counterexample: the target code and a
second region whose code is the empty string. -/
def regBad : RegistryM := [("a", [rA]), ("", [Region.zero])]

/-- A two-entry registry used in concrete checks. -/
def regW : RegistryM := [("a", [rA]), ("b", [rB])]

/-- The inner loop of the source's exchange sort, for one fixed outer
index `i`: `x` is the value currently held in slot `i`; walking `j`
over the suffix, `gt x y` triggers the swap `s[i], s[j] = s[j], s[i]`,
so slot `i` takes `y` (the new carried value) and slot `j` takes the
old carried value.  Returns the final slot-`i` value and the final
suffix. -/
def innerL {α : Type} (gt : α → α → Bool) : α → List α → α × List α
  | x, [] => (x, [])
  | x, y :: ys =>
    if gt x y then
      let p := innerL gt y ys
      (p.1, x :: p.2)
    else
      let p := innerL gt x ys
      (p.1, y :: p.2)

/-- The outer loop of the exchange sort; the fuel argument counts the
remaining outer iterations and equals the list length at the top-level
call (the inner loop preserves length, so the `0` fallback for a
non-empty list is never reached). -/
def exchSortAux {α : Type} (gt : α → α → Bool) : Nat → List α → List α
  | 0, _ => []
  | _ + 1, [] => []
  | n + 1, x :: xs =>
    let p := innerL gt x xs
    p.1 :: exchSortAux gt n p.2

/-- The source's in-place nested-loop exchange sort
(`for i; for j > i; if gt(s[i], s[j]) swap`), embedded functionally. -/
def exchSort {α : Type} (gt : α → α → Bool) (l : List α) : List α :=
  exchSortAux gt l.length l

open Classical in
/-- `Set.SortByDistance`: exchange sort with the comparison
`dist(s[i]) > dist(s[j])` from the given point. -/
noncomputable def Set.SortByDistance (s : Set) (lat lng : ℝ) : Set :=
  exchSort (fun a b =>
    decide (haversineDistance lat lng b.Latitude b.Longitude
      < haversineDistance lat lng a.Latitude a.Longitude)) s

/-- `Set.SortByName`: exchange sort with the comparison
`s[i].Name > s[j].Name`. -/
def Set.SortByName (s : Set) : Set :=
  exchSort (fun a b => decide (b.Name < a.Name)) s

/-- `Set.SortByProvider`: exchange sort on the provider name. -/
def Set.SortByProvider (s : Set) : Set :=
  exchSort (fun a b => decide (b.Provider < a.Provider)) s

/-- `Set.SortByCountry`: exchange sort on the country name. -/
def Set.SortByCountry (s : Set) : Set :=
  exchSort (fun a b => decide (b.Country < a.Country)) s

end Where

namespace Where

/-- C2: on a builder with at least one accumulated error, `First` and
`Last` both return the first accumulated error with the zero region —
the underlying set's empty-set error is never generated in that case —
and on a builder with no accumulated errors they return exactly
`Set.First` / `Set.Last` of the current set. -/
theorem query_first_last_error_priority (q : Query) :
    (∀ e rest, q.errors = e :: rest →
      Query.First q = (Region.zero, some e) ∧ Query.Last q = (Region.zero, some e)) ∧
    (q.errors = [] →
      Query.First q = Set.First q.regions ∧ Query.Last q = Set.Last q.regions) := by
  constructor
  · intro e rest h
    constructor
    · simp [Query.First, h]
    · simp [Query.Last, h]
  · intro h
    constructor
    · simp [Query.First, h]
    · simp [Query.Last, h]

/-- Witness for C2: a builder whose set is empty but which carries an
accumulated error returns that accumulated error (not the empty-set
error) from both `First` and `Last`; a builder with no errors delegates
to the set. -/
theorem query_first_last_error_priority_witness :
    (Query.First { regions := [], errors := [Err.regionNotFound "bogus"] }
        = (Region.zero, some (Err.regionNotFound "bogus")) ∧
      Query.Last { regions := [], errors := [Err.regionNotFound "bogus"] }
        = (Region.zero, some (Err.regionNotFound "bogus"))) ∧
    (Query.First { regions := [], errors := [] }
        = Set.First ([] : Set) ∧
      Query.Last { regions := [], errors := [] }
        = Set.Last ([] : Set)) := by
  constructor
  · exact (query_first_last_error_priority
      { regions := [], errors := [Err.regionNotFound "bogus"] }).1
      (Err.regionNotFound "bogus") [] rfl
  · exact (query_first_last_error_priority { regions := [], errors := [] }).2 rfl

/-- C3 counterexample: the claim asserts `Limit` is panic-free for every
integer, including negative `n`; in fact `Limit (-1)` always reaches the
slice expression `q.regions[:-1]`, which panics (modelled as `none`) —
here shown on the empty builder. -/
theorem limit_negative_aborts :
    Query.Limit { regions := [], errors := [] } (-1) = none := rfl

/-- C3 amended: for every non-negative `n`, `Limit n` never errors,
never pads, and leaves the error list untouched: it truncates the set to
its first `n` elements when `n` is smaller than the current count and is
a no-op otherwise.  (For negative `n` the Go slice expression panics,
see the counterexample.) -/
theorem limit_nonneg_spec (q : Query) (n : Int) (h : 0 ≤ n) :
    Query.Limit q n = some { q with regions :=
      if n < (q.regions.length : Int) then q.regions.take n.toNat
      else q.regions } := by
  unfold Query.Limit
  by_cases hl : n < (q.regions.length : Int)
  · simp [hl, h]
  · simp [hl]

/-- Witness for C3: `Limit 1` on a two-element builder truncates to the
first element. -/
theorem limit_nonneg_spec_witness :
    (0 : Int) ≤ 1 ∧
    Query.Limit { regions := [Region.zero, Region.zero], errors := [] } 1
      = some { regions := [Region.zero], errors := [] } := by
  refine ⟨by decide, ?_⟩
  have h := limit_nonneg_spec
    { regions := [Region.zero, Region.zero], errors := [] } 1 (by decide)
  simpa using h

/-- C1: on a code that does not resolve in the catalog, `NearRegion`
appends exactly one error (the resolution failure) to the builder's
error list and leaves the current set untouched, so later chain steps
run against the prior set; consequently
`NewQuery().NearRegion(code, r).ByProvider(p).ExecWithErrors()` returns
the one-element error list together with the full starting catalog
filtered only by provider `p`. -/
theorem nearRegion_unresolved_accumulates (reg : Registry) (q : Query)
    (code : Code) (radiusKm : ℝ) (h : reg.lookup code = none) :
    (Query.NearRegion reg q code radiusKm).regions = q.regions ∧
    (Query.NearRegion reg q code radiusKm).errors
      = q.errors ++ [Err.regionNotFound code] ∧
    ∀ p : String,
      Query.ExecWithErrors
          (Query.ByProvider (Query.NearRegion reg (NewQuery reg) code radiusKm) p)
        = (Set.ByProvider (allRegions reg) p, [Err.regionNotFound code]) := by
  have hIs : Is reg code = (Region.zero, some (.regionNotFound code)) := by
    simp [Is, h]
  refine ⟨?_, ?_, ?_⟩
  · simp [Query.NearRegion, hIs]
  · simp [Query.NearRegion, hIs]
  · intro p
    simp [Query.NearRegion, hIs, Query.ExecWithErrors, Query.ByProvider, NewQuery]

/-- Witness for C1: on a one-entry catalog, `NearRegion "bogus"` leaves
the set untouched, records exactly one error, and the subsequent
`ByProvider "aws"` step still filters the full starting catalog. -/
theorem nearRegion_unresolved_accumulates_witness :
    ([("us-east-1", Region.zero)] : Registry).lookup "bogus" = none ∧
    Query.ExecWithErrors
        (Query.ByProvider
          (Query.NearRegion [("us-east-1", Region.zero)]
            (NewQuery [("us-east-1", Region.zero)]) "bogus" 100) "aws")
      = (Set.ByProvider (allRegions [("us-east-1", Region.zero)]) "aws",
          [Err.regionNotFound "bogus"]) := by
  refine ⟨rfl, ?_⟩
  exact (nearRegion_unresolved_accumulates [("us-east-1", Region.zero)]
    (NewQuery [("us-east-1", Region.zero)]) "bogus" 100 rfl).2.2 "aws"

/-- C6: `Intersect(A,B)` and `Difference(A,B)` partition `A`: together
they contain exactly the occurrences of `A` (their concatenation is a
permutation of `A`), and each preserves `A`'s original relative order
(each is a sublist of `A`). -/
theorem intersect_difference_partition (A B : Set) :
    List.Perm (Set.Intersect A B ++ Set.Difference A B) A ∧
    List.Sublist (Set.Intersect A B) A ∧
    List.Sublist (Set.Difference A B) A := by
  refine ⟨?_, ?_, ?_⟩
  · exact List.filter_append_perm (fun r => (B.map Region.Code).contains r.Code) A
  · exact List.filter_sublist A
  · exact List.filter_sublist A

/-- The loop of `Are`, with the accumulator generalised: resolvable
codes contribute their region lists in argument order, unresolved codes
are appended to the not-found list in argument order. -/
theorem are_foldl (reg : RegistryM) (codes : List Code) (acc : Set × List Code) :
    codes.foldl
        (fun (acc : Set × List Code) code =>
          match reg.lookup code with
          | some regionList => (acc.1 ++ regionList, acc.2)
          | none => (acc.1, acc.2 ++ [code]))
        acc
      = (acc.1 ++ (codes.filterMap (fun c => reg.lookup c)).flatten,
          acc.2 ++ codes.filter (fun c => (reg.lookup c).isNone)) := by
  induction codes generalizing acc with
  | nil => simp
  | cons c cs ih =>
    cases h : reg.lookup c with
    | some regionList => simp [h, ih, List.filterMap_cons, List.filter_cons]
    | none => simp [h, ih, List.filterMap_cons, List.filter_cons]

/-- C5: `Are` returns the regions of every resolvable code, in argument
order (each code contributing its full region list), and exactly when at
least one code is unresolved it returns one error naming the complete
list of unresolved codes, in argument order. -/
theorem are_complete_spec (reg : RegistryM) (codes : List Code) :
    (Are reg codes).1 = (codes.filterMap (fun c => reg.lookup c)).flatten ∧
    (Are reg codes).2 =
      (if codes.filter (fun c => (reg.lookup c).isNone) = [] then none
        else some (.regionNotFoundMany
          (codes.filter (fun c => (reg.lookup c).isNone)))) := by
  unfold Are
  rw [are_foldl]
  by_cases h : codes.filter (fun c => (reg.lookup c).isNone) = [] <;> simp [h]

/-- The codes of an `addUnique` pass are the first-occurrence dedup of
the input's codes. -/
theorem addUnique_codes (seen : List Code) (l : Set) :
    (addUnique seen l).map Region.Code = dedupFirst seen (l.map Region.Code) := by
  induction l generalizing seen with
  | nil => simp [addUnique, dedupFirst]
  | cons r rs ih =>
    by_cases h : r.Code ∈ seen <;> simp [addUnique, dedupFirst, h, ih]

/-- A first-occurrence dedup has no duplicates and avoids the seen
list. -/
theorem dedupFirst_nodup (seen : List Code) (l : List Code) :
    (dedupFirst seen l).Nodup ∧ ∀ c ∈ dedupFirst seen l, c ∉ seen := by
  induction l generalizing seen with
  | nil => simp [dedupFirst]
  | cons c cs ih =>
    by_cases h : c ∈ seen
    · simpa [dedupFirst, h] using ih seen
    · have h2 := ih (c :: seen)
      refine ⟨?_, ?_⟩
      · rw [dedupFirst, if_neg h]
        refine List.nodup_cons.mpr ⟨?_, h2.1⟩
        intro hc
        exact (h2.2 c hc) (List.mem_cons_self c seen)
      · intro x hx
        rw [dedupFirst, if_neg h] at hx
        rcases List.mem_cons.mp hx with hx | hx
        · exact hx ▸ h
        · intro hxs
          exact (h2.2 x hx) (List.mem_cons_of_mem c hxs)

/-- The length of a first-occurrence dedup counts the distinct elements
of the input not already seen. -/
theorem dedupFirst_length (seen : List Code) (l : List Code) :
    (dedupFirst seen l).length = (l.toFinset \ seen.toFinset).card := by
  induction l generalizing seen with
  | nil => simp [dedupFirst]
  | cons c cs ih =>
    by_cases h : c ∈ seen
    · have hc : c ∈ seen.toFinset := List.mem_toFinset.mpr h
      simp [dedupFirst, h, ih, List.toFinset_cons, Finset.insert_sdiff_of_mem _ hc]
    · have hc : c ∉ seen.toFinset := fun hc => h (List.mem_toFinset.mp hc)
      rw [dedupFirst, if_neg h]
      rw [List.length_cons, ih (c :: seen)]
      rw [List.toFinset_cons, List.toFinset_cons,
        Finset.insert_sdiff_of_not_mem _ hc, Finset.sdiff_insert]
      by_cases hm : c ∈ cs.toFinset \ seen.toFinset
      · rw [Finset.card_erase_add_one hm, Finset.insert_eq_self.mpr hm]
      · rw [Finset.erase_eq_of_not_mem hm, Finset.card_insert_of_not_mem hm]

/-- C4 counterexample: with a duplicate code inside one input the
claimed length formula fails: `Union([a,a], [])` has one element while
`|A| + |B| - |A ∩ B by Code|` is `2 + 0 - 0 = 2`. -/
theorem union_length_duplicate_counterexample :
    ¬ ((Set.Union [rA, rA] []).length
        = ([rA, rA] : Set).length + ([] : Set).length - commonCodeCount [rA, rA] []) := by
  intro h
  have h1 : (Set.Union [rA, rA] []).length = 1 := rfl
  have h2 : commonCodeCount [rA, rA] [] = 0 := rfl
  rw [h1, h2] at h
  simp at h

/-- C4 amended: no code ever appears twice in `Union(A,B)` (for all
inputs); and when each input is free of internal duplicate codes — the
reading under which the spec's formula is stated, since duplicate codes
within one input collapse to their first occurrence — the length of
`Union(A,B)` is `|A| + |B|` minus the number of codes common to `A` and
`B`. -/
theorem union_length_nodup_spec (A B : Set) :
    ((Set.Union A B).map Region.Code).Nodup ∧
    ((A.map Region.Code).Nodup → (B.map Region.Code).Nodup →
      (Set.Union A B).length = A.length + B.length - commonCodeCount A B) := by
  constructor
  · rw [Set.Union, addUnique_codes]
    exact (dedupFirst_nodup [] _).1
  · intro hA hB
    have hlen : (Set.Union A B).length
        = (((A ++ B).map Region.Code).toFinset).card := by
      have := congrArg List.length (addUnique_codes [] (A ++ B))
      rw [List.length_map] at this
      rw [Set.Union, this, dedupFirst_length]
      simp
    have hsplit : ((A ++ B).map Region.Code).toFinset
        = (A.map Region.Code).toFinset ∪ (B.map Region.Code).toFinset := by
      rw [List.map_append, List.toFinset_append]
    have hcommon : commonCodeCount A B
        = ((A.map Region.Code).toFinset ∩ (B.map Region.Code).toFinset).card := by
      rw [commonCodeCount]
      have hnodupf : ((A.map Region.Code).filter
          (fun c => (B.map Region.Code).contains c)).Nodup := hA.filter _
      rw [List.dedup_eq_self.mpr hnodupf]
      rw [← List.toFinset_card_of_nodup hnodupf]
      rw [List.toFinset_filter]
      congr 1
      rw [← Finset.filter_mem_eq_inter]
      apply Finset.filter_congr
      intro c _
      simp [List.elem_iff]
    have hA' : (A.map Region.Code).toFinset.card = A.length := by
      rw [List.toFinset_card_of_nodup hA, List.length_map]
    have hB' : (B.map Region.Code).toFinset.card = B.length := by
      rw [List.toFinset_card_of_nodup hB, List.length_map]
    have hcard := Finset.card_union_add_card_inter
      (A.map Region.Code).toFinset (B.map Region.Code).toFinset
    rw [hA', hB'] at hcard
    rw [hlen, hsplit, hcommon]
    omega

/-- Witness for C4: on the duplicate-free inputs `[a]` and `[b]` the
union has `1 + 1 - 0 = 2` elements and duplicate-free codes. -/
theorem union_length_nodup_spec_witness :
    (([rA] : Set).map Region.Code).Nodup ∧ (([rB] : Set).map Region.Code).Nodup ∧
    ((Set.Union [rA] [rB]).map Region.Code).Nodup ∧
    (Set.Union [rA] [rB]).length
      = ([rA] : Set).length + ([rB] : Set).length - commonCodeCount [rA] [rB] := by
  have h := union_length_nodup_spec [rA] [rB]
  exact ⟨by decide, by decide, h.1, h.2 (by decide) (by decide)⟩

/-- The inner loop preserves the length of the suffix. -/
theorem innerL_length {α : Type} (gt : α → α → Bool) :
    ∀ (l : List α) (x : α), ((innerL gt x l).2).length = l.length := by
  intro l
  induction l with
  | nil => intro x; simp [innerL]
  | cons y ys ih =>
    intro x
    by_cases hg : gt x y = true <;> simp [innerL, hg, ih]

/-- The inner loop permutes the carried value and the suffix. -/
theorem innerL_perm {α : Type} (gt : α → α → Bool) :
    ∀ (l : List α) (x : α),
      List.Perm ((innerL gt x l).1 :: (innerL gt x l).2) (x :: l) := by
  intro l
  induction l with
  | nil => intro x; simp [innerL]
  | cons y ys ih =>
    intro x
    by_cases hg : gt x y = true
    · simp only [innerL, hg, if_pos]
      exact List.Perm.trans
        (List.Perm.swap x (innerL gt y ys).1 (innerL gt y ys).2)
        ((ih y).cons x)
    · simp only [innerL, hg, if_neg, Bool.false_eq_true, ite_false]
      exact List.Perm.trans
        (List.Perm.swap y (innerL gt x ys).1 (innerL gt x ys).2)
        (List.Perm.trans ((ih x).cons y) (List.Perm.swap x y ys))

/-- The inner loop's carried result is a minimum: it is below the
starting value and every element of the final suffix, for any
comparison that is total and transitive in the given sense. -/
theorem innerL_min {α : Type} (gt : α → α → Bool) (le : α → α → Prop)
    (h1 : ∀ a b, gt a b = true → le b a)
    (h2 : ∀ a b, gt a b = false → le a b)
    (htrans : ∀ a b c, le a b → le b c → le a c) :
    ∀ (l : List α) (x : α),
      le (innerL gt x l).1 x ∧ ∀ y ∈ (innerL gt x l).2, le (innerL gt x l).1 y := by
  intro l
  induction l with
  | nil =>
    intro x
    refine ⟨?_, by simp [innerL]⟩
    simp only [innerL]
    cases hg : gt x x with
    | true => exact h1 x x hg
    | false => exact h2 x x hg
  | cons y ys ih =>
    intro x
    by_cases hg : gt x y = true
    · simp only [innerL, hg, if_pos]
      refine ⟨htrans _ y x (ih y).1 (h1 x y hg), ?_⟩
      intro z hz
      rcases List.mem_cons.mp hz with hz | hz
      · exact hz ▸ htrans _ y x (ih y).1 (h1 x y hg)
      · exact (ih y).2 z hz
    · simp only [innerL, hg, if_neg, Bool.false_eq_true, ite_false]
      refine ⟨(ih x).1, ?_⟩
      intro z hz
      rcases List.mem_cons.mp hz with hz | hz
      · exact hz ▸ htrans _ x y (ih x).1 (h2 x y (Bool.not_eq_true _ ▸ hg))
      · exact (ih x).2 z hz

/-- The exchange sort permutes its input (stated on the fuelled loop,
with the fuel equal to the length). -/
theorem exchSortAux_perm {α : Type} (gt : α → α → Bool) :
    ∀ (n : Nat) (l : List α), l.length = n → List.Perm (exchSortAux gt n l) l := by
  intro n
  induction n with
  | zero =>
    intro l h
    rw [List.length_eq_zero] at h
    subst h
    simp [exchSortAux]
  | succ n ih =>
    intro l h
    match l with
    | [] => simp [exchSortAux]
    | x :: xs =>
      simp only [exchSortAux]
      have hlen : (innerL gt x xs).2.length = xs.length := innerL_length gt xs x
      have hperm := ih (innerL gt x xs).2 (by rw [hlen]; simpa using h)
      exact List.Perm.trans (hperm.cons (innerL gt x xs).1) (innerL_perm gt xs x)

/-- The exchange sort's output is pairwise ordered for any comparison
that is total and transitive in the given sense. -/
theorem exchSortAux_pairwise {α : Type} (gt : α → α → Bool) (le : α → α → Prop)
    (h1 : ∀ a b, gt a b = true → le b a)
    (h2 : ∀ a b, gt a b = false → le a b)
    (htrans : ∀ a b c, le a b → le b c → le a c) :
    ∀ (n : Nat) (l : List α), l.length = n → (exchSortAux gt n l).Pairwise le := by
  intro n
  induction n with
  | zero => intro l h; simp [exchSortAux]
  | succ n ih =>
    intro l h
    match l with
    | [] => simp [exchSortAux]
    | x :: xs =>
      simp only [exchSortAux]
      have hlen : (innerL gt x xs).2.length = xs.length := innerL_length gt xs x
      refine List.pairwise_cons.mpr ⟨?_, ih (innerL gt x xs).2 (by rw [hlen]; simpa using h)⟩
      intro z hz
      have hzmem : z ∈ (innerL gt x xs).2 :=
        (exchSortAux_perm gt n (innerL gt x xs).2
          (by rw [hlen]; simpa using h)).mem_iff.mp hz
      exact (innerL_min gt le h1 h2 htrans xs x).2 z hzmem

/-- C8: the names of `SortByName`'s output form a non-decreasing
(lexicographically ascending) sequence, for every input set. -/
theorem sortByName_nondecreasing (s : Set) :
    ((Set.SortByName s).map Region.Name).Pairwise (· ≤ ·) := by
  rw [List.pairwise_map]
  exact exchSortAux_pairwise _ (fun a b => a.Name ≤ b.Name)
    (fun a b hg => le_of_lt (of_decide_eq_true hg))
    (fun a b hg => not_lt.mp (of_decide_eq_false hg))
    (fun a b c hab hbc => le_trans hab hbc)
    s.length s rfl

/-- The haversine distance from a point to itself is exactly zero. -/
theorem haversine_self (lat lng : ℝ) : haversineDistance lat lng lat lng = 0 := by
  unfold haversineDistance atan2
  norm_num [Real.sqrt_one, Real.arctan_zero]

/-- C7: `IsNear` is boundary-inclusive — whenever the haversine distance
from the region to the query point is exactly the radius, the region
matches — and in general `IsNear(lat,lng,r)` holds exactly when the
haversine distance from the region's coordinates is at most `r`. -/
theorem isNear_boundary_inclusive (r : Region) (lat lng radiusKm : ℝ)
    (h : haversineDistance r.Latitude r.Longitude lat lng = radiusKm) :
    Region.IsNear r lat lng radiusKm ∧
    ∀ lat' lng' radius' : ℝ,
      (Region.IsNear r lat' lng' radius' ↔
        haversineDistance r.Latitude r.Longitude lat' lng' ≤ radius') := by
  refine ⟨?_, fun lat' lng' radius' => Iff.rfl⟩
  rw [Region.IsNear, h]

/-- Witness for C7: the zero region sits at distance exactly `0` from
the origin, and with radius `0` — the boundary case — it matches. -/
theorem isNear_boundary_inclusive_witness :
    haversineDistance Region.zero.Latitude Region.zero.Longitude 0 0 = 0 ∧
    Region.IsNear Region.zero 0 0 0 := by
  have h : haversineDistance Region.zero.Latitude Region.zero.Longitude 0 0 = 0 :=
    haversine_self 0 0
  exact ⟨h, (isNear_boundary_inclusive Region.zero 0 0 0 h).1⟩

/-- C9: each of the four sort operations returns a permutation of its
input — no element is added, duplicated, or lost, so the multiset of
regions (and in particular the length) is preserved. -/
theorem sorts_preserve_elements (s : Set) (lat lng : ℝ) :
    List.Perm (Set.SortByDistance s lat lng) s ∧
    List.Perm (Set.SortByName s) s ∧
    List.Perm (Set.SortByProvider s) s ∧
    List.Perm (Set.SortByCountry s) s :=
  ⟨exchSortAux_perm _ s.length s rfl, exchSortAux_perm _ s.length s rfl,
    exchSortAux_perm _ s.length s rfl, exchSortAux_perm _ s.length s rfl⟩

/-- For non-negative arguments, `atan2` is at most `π / 2`. -/
theorem atan2_le_pi_div_two (y x : ℝ) (hy : 0 ≤ y) (hx : 0 ≤ x) :
    atan2 y x ≤ Real.pi / 2 := by
  unfold atan2
  split_ifs with h1 h2 h3 h4 h5
  · exact le_of_lt (Real.arctan_lt_pi_div_two _)
  · linarith [h2.1]
  · linarith [h3.1]
  · exact le_refl _
  · linarith [h5.2]
  · linarith [Real.pi_pos]

/-- `math.MaxFloat64` is positive. -/
theorem maxFloat64_pos : (0 : ℝ) < maxFloat64 := by
  unfold maxFloat64
  have h1 : (2 : ℝ) ^ 972 ≤ 2 ^ 1024 := pow_le_pow_right₀ (by norm_num) (by norm_num)
  have h2 : (2 : ℝ) ^ 972 = 2 * 2 ^ 971 := by ring
  have h3 : (0 : ℝ) < 2 ^ 971 := pow_pos (by norm_num) 971
  linarith

/-- Every haversine distance is strictly below `math.MaxFloat64` (in
the real-number model `c ≤ π`, so a distance never exceeds `6371·π`). -/
theorem haversine_lt_maxFloat64 (a b c d : ℝ) :
    haversineDistance a b c d < maxFloat64 := by
  simp only [haversineDistance, maxFloat64]
  have h1 := atan2_le_pi_div_two
    (Real.sqrt (Real.sin (((c - a) * Real.pi / 180) / 2) *
        Real.sin (((c - a) * Real.pi / 180) / 2) +
      Real.sin (((d - b) * Real.pi / 180) / 2) *
          Real.sin (((d - b) * Real.pi / 180) / 2) *
          Real.cos (a * Real.pi / 180) * Real.cos (c * Real.pi / 180)))
    (Real.sqrt (1 - (Real.sin (((c - a) * Real.pi / 180) / 2) *
        Real.sin (((c - a) * Real.pi / 180) / 2) +
      Real.sin (((d - b) * Real.pi / 180) / 2) *
          Real.sin (((d - b) * Real.pi / 180) / 2) *
          Real.cos (a * Real.pi / 180) * Real.cos (c * Real.pi / 180))))
    (Real.sqrt_nonneg _) (Real.sqrt_nonneg _)
  have h2 : Real.pi < 3.15 := Real.pi_lt_d2
  have h3 : (32768 : ℝ) ≤ 2 ^ 971 := by
    calc (32768 : ℝ) = 2 ^ 15 := by norm_num
    _ ≤ 2 ^ 971 := pow_le_pow_right₀ (by norm_num) (by norm_num)
  have h4 : (2 : ℝ) ^ 971 ≤ 2 ^ 1024 - 2 ^ 971 := by
    have h5 : (2 : ℝ) ^ 972 ≤ 2 ^ 1024 := pow_le_pow_right₀ (by norm_num) (by norm_num)
    have h6 : (2 : ℝ) ^ 972 = 2 * 2 ^ 971 := by ring
    linarith
  linarith

/-- Folding `Closest`'s loop body over a list: the skip of the target
code is the same as pre-filtering the list by code. -/
theorem foldl_skip (t : Region) (toCode : Code) :
    ∀ (l : Set) (acc : Region × ℝ),
      l.foldl (fun acc region =>
          if region.Code == toCode then acc else closestStep t acc region) acc
        = (l.filter (fun r => !(r.Code == toCode))).foldl (closestStep t) acc := by
  intro l
  induction l with
  | nil => intro acc; rfl
  | cons r rs ih =>
    intro acc
    by_cases h : (r.Code == toCode) = true
    · have hneg : (!(r.Code == toCode)) = false := by rw [h]; rfl
      rw [List.foldl_cons, if_pos h, List.filter_cons, hneg,
        if_neg Bool.false_ne_true]
      exact ih acc
    · have hb : (r.Code == toCode) = false := Bool.eq_false_iff.mpr h
      have hneg : (!(r.Code == toCode)) = true := by rw [hb]; rfl
      rw [List.foldl_cons, if_neg h, List.filter_cons, hneg, if_pos rfl,
        List.foldl_cons]
      exact ih (closestStep t acc r)

/-- The minimum scan either returns its accumulator untouched or a list
element paired with its own distance; its running minimum never grows
and ends below the distance of every scanned element. -/
theorem closestFold_spec (t : Region) :
    ∀ (l : Set) (acc : Region × ℝ),
      (l.foldl (closestStep t) acc = acc ∨
        ((l.foldl (closestStep t) acc).1 ∈ l ∧
          (l.foldl (closestStep t) acc).2
            = Region.Distance t (l.foldl (closestStep t) acc).1)) ∧
      (l.foldl (closestStep t) acc).2 ≤ acc.2 ∧
      ∀ r ∈ l, (l.foldl (closestStep t) acc).2 ≤ Region.Distance t r := by
  intro l
  induction l with
  | nil => intro acc; exact ⟨Or.inl rfl, le_refl _, by simp⟩
  | cons r rs ih =>
    intro acc
    simp only [List.foldl_cons]
    obtain ⟨h1, h2, h3⟩ := ih (closestStep t acc r)
    refine ⟨?_, ?_, ?_⟩
    · rcases h1 with h1 | h1
      · rw [h1]
        unfold closestStep
        by_cases hc : Region.Distance t r < acc.2
        · rw [if_pos hc]
          exact Or.inr ⟨List.mem_cons_self r rs, rfl⟩
        · rw [if_neg hc]
          exact Or.inl rfl
      · exact Or.inr ⟨List.mem_cons_of_mem r h1.1, h1.2⟩
    · refine le_trans h2 ?_
      unfold closestStep
      by_cases hc : Region.Distance t r < acc.2
      · rw [if_pos hc]
        exact le_of_lt hc
      · rw [if_neg hc]
    · intro x hx
      rcases List.mem_cons.mp hx with hx | hx
      · subst hx
        refine le_trans h2 ?_
        unfold closestStep
        by_cases hc : Region.Distance t x < acc.2
        · rw [if_pos hc]
        · rw [if_neg hc]
          exact not_lt.mp hc
      · exact h3 x hx

/-- On a non-empty candidate list the scan, seeded with
`math.MaxFloat64`, always picks a genuine list element (every real
distance beats the seed). -/
theorem closestFold_mem (t : Region) (l : Set) (hl : l ≠ []) :
    (l.foldl (closestStep t) (Region.zero, maxFloat64)).1 ∈ l ∧
    (l.foldl (closestStep t) (Region.zero, maxFloat64)).2
      = Region.Distance t (l.foldl (closestStep t) (Region.zero, maxFloat64)).1 := by
  obtain ⟨h1, _, h3⟩ := closestFold_spec t l (Region.zero, maxFloat64)
  rcases h1 with h1 | h1
  · exfalso
    obtain ⟨r, hr⟩ := List.exists_mem_of_ne_nil l hl
    have hle := h3 r hr
    rw [h1] at hle
    exact absurd hle (not_le.mpr (haversine_lt_maxFloat64 _ _ _ _))
  · exact h1

/-- C10 counterexample: the claim says `Closest(to)` errors exactly
when no region with a different code exists; but with a cataloged
region whose code is the empty string — the code's "nothing found"
sentinel — `Closest "a"` reports `noOtherRegions` even though a region
with a different code is present. -/
theorem closest_empty_code_counterexample :
    Closest regBad "a" = (Region.zero, some Err.noOtherRegions) ∧
    Region.zero ∈ allRegionsM regBad ∧ Region.zero.Code ≠ "a" := by
  refine ⟨?_, by simp [allRegionsM, regBad], by decide⟩
  have hd : Region.Distance rA Region.zero = 0 := haversine_self 0 0
  have h1 : Closest regBad "a"
      = (if ((allRegionsM regBad).foldl
              (fun acc region =>
                if region.Code == "a" then acc else closestStep rA acc region)
              (Region.zero, maxFloat64)).1.Code == "" then
          (Region.zero, some Err.noOtherRegions)
        else (((allRegionsM regBad).foldl
              (fun acc region =>
                if region.Code == "a" then acc else closestStep rA acc region)
              (Region.zero, maxFloat64)).1, none)) := rfl
  have h2 : (allRegionsM regBad).foldl
      (fun acc region =>
        if region.Code == "a" then acc else closestStep rA acc region)
      (Region.zero, maxFloat64)
      = closestStep rA (Region.zero, maxFloat64) Region.zero := rfl
  have h3 : closestStep rA (Region.zero, maxFloat64) Region.zero
      = (Region.zero, (0 : ℝ)) := by
    unfold closestStep
    simp only [hd]
    rw [if_pos maxFloat64_pos]
  rw [h1, h2, h3]
  rfl

/-- C10 amended: for a code that resolves and provided every cataloged
region has a non-empty code (the empty code is the implementation's
"nothing found" sentinel, so an empty-code region breaks the error
contract — see the counterexample), `Closest` succeeds exactly when a
region with a different code exists, and on success it returns a
candidate region — hence one whose code differs from the target — at
minimal haversine distance from the resolved target among all cataloged
regions with a different code. -/
theorem closest_spec_nonempty_codes (reg : RegistryM) (toCode : Code)
    (t : Region) (ts : List Region)
    (hresolve : reg.lookup toCode = some (t :: ts))
    (hcodes : ∀ r ∈ allRegionsM reg, r.Code ≠ "") :
    ((Closest reg toCode).2 = none ↔ candidates reg toCode ≠ []) ∧
    ((Closest reg toCode).2 = none →
      (Closest reg toCode).1 ∈ candidates reg toCode ∧
      (Closest reg toCode).1.Code ≠ toCode ∧
      ∀ r ∈ candidates reg toCode,
        Region.Distance t (Closest reg toCode).1 ≤ Region.Distance t r) := by
  have hFirst : RegionQuery.First (IsQ reg toCode) = (t, none) := by
    simp [IsQ, RegionQuery.First, hresolve]
  have hC : Closest reg toCode
      = (if ((candidates reg toCode).foldl (closestStep t)
              (Region.zero, maxFloat64)).1.Code == "" then
          (Region.zero, some Err.noOtherRegions)
        else (((candidates reg toCode).foldl (closestStep t)
              (Region.zero, maxFloat64)).1, none)) := by
    unfold Closest
    rw [hFirst]
    simp only [foldl_skip, candidates]
  by_cases hcand : candidates reg toCode = []
  · have hres : (candidates reg toCode).foldl (closestStep t)
        (Region.zero, maxFloat64) = (Region.zero, maxFloat64) := by
      rw [hcand]
      rfl
    rw [hC, hres]
    constructor
    · simp [Region.zero, hcand]
    · intro habs
      simp [Region.zero] at habs
  · obtain ⟨hmem, hdist⟩ := closestFold_mem t (candidates reg toCode) hcand
    have hne : ((candidates reg toCode).foldl (closestStep t)
        (Region.zero, maxFloat64)).1.Code ≠ "" :=
      hcodes _ (List.mem_of_mem_filter hmem)
    have hbeq : (((candidates reg toCode).foldl (closestStep t)
        (Region.zero, maxFloat64)).1.Code == "") = false :=
      beq_eq_false_iff_ne.mpr hne
    rw [hC, hbeq]
    constructor
    · simp [hcand]
    · intro _
      refine ⟨hmem, ?_, ?_⟩
      · have hf := (List.mem_filter.mp hmem).2
        simpa using hf
      · intro r hr
        have h3 := (closestFold_spec t (candidates reg toCode)
          (Region.zero, maxFloat64)).2.2 r hr
        rw [hdist] at h3
        exact h3

/-- Witness for C10: on a two-region catalog (codes `"a"` and `"b"`,
both non-empty), `Closest "a"` succeeds and returns the one candidate
at minimal distance. -/
theorem closest_spec_nonempty_codes_witness :
    List.lookup "a" regW = some [rA] ∧
    (((Closest regW "a").2 = none ↔ candidates regW "a" ≠ []) ∧
      ((Closest regW "a").2 = none →
        (Closest regW "a").1 ∈ candidates regW "a" ∧
        (Closest regW "a").1.Code ≠ "a" ∧
        ∀ r ∈ candidates regW "a",
          Region.Distance rA (Closest regW "a").1 ≤ Region.Distance rA r)) := by
  refine ⟨rfl, ?_⟩
  refine closest_spec_nonempty_codes regW "a" rA [] rfl ?_
  intro r hr
  simp [allRegionsM, regW] at hr
  rcases hr with rfl | rfl
  · decide
  · decide

end Where
